import Mathlib

/-!
Shallow embedding of the `Gas` value type from `src/near-sdk/src/types/gas.rs`
and proofs about it.

Strings are modelled as lists of byte values (`List Nat`, each entry an ASCII
code), matching the byte-level behaviour of Rust's integer parser and
formatter.  Machine integers are modelled as `Nat` with explicit bounds
(`U64_MAX`) and explicit `% 2 ^ 64` where wrapping matters.  Rust arithmetic
whose overflow behaviour depends on the build configuration is parameterised
by a `checks : Bool` flag (`true` = overflow checks on, the expression panics
on overflow; `false` = release wrapping).
-/

deriving instance DecidableEq for Except

namespace GasSpec

/-- `u64::MAX`. -/
def U64_MAX : Nat := 2 ^ 64 - 1

/-- `pub struct Gas(pub u64);` — the magnitude is modelled as a `Nat`;
theorems carry the invariant `val ≤ U64_MAX` where it matters. -/
structure Gas where
  val : Nat
deriving DecidableEq

/-- The explicit arithmetic error kinds named by the specification. -/
inductive GasError where
  | Overflow
  | Underflow
  | DivisionByZero
deriving DecidableEq

/-- Outcome of one Rust arithmetic expression in the embedding: a normal
result, an explicit error result, a panic (overflow checks on, or division by
zero), or a wrapped value (overflow checks off).  The code in `gas.rs` never
produces `err`; the constructor exists so that claims about explicit error
results can be stated and refuted. -/
inductive ArithOutcome where
  | ok (g : Gas)
  | err (e : GasError)
  | panicked
  | wrapped (g : Gas)
deriving DecidableEq

/-- `pub const ONE_TGAS: Gas = Gas(u64::pow(10, 12));` -/
def ONE_TGAS : Gas := ⟨10 ^ 12⟩

/-- `impl ops::Add for Gas { fn add(self, other) { Self(self.0 + other.0) } }`
Native `u64` addition: panics on overflow when checks are on, wraps when off.
`AddAssign` performs the same computation on the single field, so it is the
same function. -/
def Gas.add (checks : Bool) (a b : Gas) : ArithOutcome :=
  if a.val + b.val ≤ U64_MAX then .ok ⟨a.val + b.val⟩
  else if checks then .panicked
  else .wrapped ⟨(a.val + b.val) % 2 ^ 64⟩

/-- `impl ops::Sub for Gas { fn sub(self, other) { Self(self.0 - other.0) } }`
Native `u64` subtraction: panics on underflow when checks are on, wraps when
off.  `SubAssign` is the same computation on the single field. -/
def Gas.sub (checks : Bool) (a b : Gas) : ArithOutcome :=
  if b.val ≤ a.val then .ok ⟨a.val - b.val⟩
  else if checks then .panicked
  else .wrapped ⟨(2 ^ 64 + a.val - b.val) % 2 ^ 64⟩

/-- `impl ops::Mul<u64> for Gas { fn mul(self, other: u64) { Self(self.0 * other) } }` -/
def Gas.mul (checks : Bool) (a : Gas) (n : Nat) : ArithOutcome :=
  if a.val * n ≤ U64_MAX then .ok ⟨a.val * n⟩
  else if checks then .panicked
  else .wrapped ⟨(a.val * n) % 2 ^ 64⟩

/-- `impl ops::Div<u64> for Gas { fn div(self, other: u64) { Self(self.0 / other) } }`
Rust integer division by zero panics in every build configuration. -/
def Gas.div (a : Gas) (n : Nat) : ArithOutcome :=
  if n = 0 then .panicked else .ok ⟨a.val / n⟩

/-- `impl ops::Rem<u64> for Gas { fn rem(self, rhs: u64) { Self(self.0.rem(rhs)) } }`
Rust integer remainder by zero panics in every build configuration. -/
def Gas.rem (a : Gas) (n : Nat) : ArithOutcome :=
  if n = 0 then .panicked else .ok ⟨a.val % n⟩

/-- `pub fn from_tgas(tgas: u64) -> Gas { ONE_TGAS * tgas.into() }` -/
def Gas.from_tgas (checks : Bool) (tgas : Nat) : ArithOutcome :=
  Gas.mul checks ONE_TGAS tgas

/-! ### The standard `u64` string parser (`u64::from_str_radix(s, 10)`)

`impl Deserialize for Gas` runs `s.parse::<u64>()`, and `impl FromStr for Gas`
runs `u64::from_str_radix(&int, 10)`; both are the same core routine, which
works on the byte slice of the string:
  * an empty string fails with `Empty`;
  * a leading `b'+'` (byte 43) is accepted as a sign; a bare `"+"` fails with
    `InvalidDigit` (for the unsigned type `b'-'` is not treated as a sign, so
    it fails in the digit loop like any other non-digit);
  * each remaining byte must be an ASCII digit (`to_digit(10)`), else
    `InvalidDigit`;
  * the accumulator update `acc * 10 + d` is overflow-checked: exceeding
    `u64::MAX` fails with `PosOverflow`.
-/

/-- The error kinds of `std::num::IntErrorKind` that this routine produces. -/
inductive IntErrorKind where
  | Empty
  | InvalidDigit
  | PosOverflow
deriving DecidableEq

/-- `char::to_digit(10)` on an ASCII byte: `Some(b - b'0')` for `b'0'..=b'9'`. -/
def toDigit10 (b : Nat) : Option Nat :=
  if 48 ≤ b ∧ b ≤ 57 then some (b - 48) else none

/-- The digit-accumulation loop of `from_str_radix`.  The two checked steps
`checked_mul 10` and `checked_add d` both fail with `PosOverflow`, which is
exactly when `acc * 10 + d` exceeds `u64::MAX`. -/
def parseDigitsLoop : List Nat → Nat → Except IntErrorKind Nat
  | [], acc => .ok acc
  | b :: bs, acc =>
    match toDigit10 b with
    | none => .error .InvalidDigit
    | some d =>
      if acc * 10 + d ≤ U64_MAX then parseDigitsLoop bs (acc * 10 + d)
      else .error .PosOverflow

/-- `u64::from_str_radix(s, 10)` (= `s.parse::<u64>()`), on the bytes of `s`. -/
def u64FromStr (s : List Nat) : Except IntErrorKind Nat :=
  match s with
  | [] => .error .Empty
  | b :: rest =>
    if b = 43 then
      if rest = [] then .error .InvalidDigit else parseDigitsLoop rest 0
    else parseDigitsLoop (b :: rest) 0

/-- `impl Deserialize for Gas`: deserialize the unquoted string content, then
`s.parse::<u64>().map(Self)`. -/
def Gas.deserializeText (s : List Nat) : Except IntErrorKind Gas :=
  (u64FromStr s).map Gas.mk

/-! ### The free-form parser (`impl FromStr for Gas`) -/

/-- `fn isNum(c: char) -> bool { match c { '0'..='9' => true, _ => false } }`
on an ASCII byte. -/
def isNum (b : Nat) : Bool := decide (48 ≤ b ∧ b ≤ 57)

/-- `str::replace(value, "_", "to")`: every underscore byte (95) is replaced
by the two bytes `t` (116), `o` (111). -/
def replaceUnderscore : List Nat → List Nat
  | [] => []
  | b :: bs =>
    if b = 95 then 116 :: 111 :: replaceUnderscore bs
    else b :: replaceUnderscore bs

/-- `impl FromStr for Gas::from_str`: reject unless the first character is a
decimal digit (`value.starts_with(isNum)`; an empty string starts with
nothing, so it is rejected too), then replace `"_"` by `"to"` and run
`u64::from_str_radix(_, 10)`. -/
def Gas.from_str (s : List Nat) : Except IntErrorKind Gas :=
  match s with
  | [] => .error .InvalidDigit
  | b :: _ =>
    if isNum b then (u64FromStr (replaceUnderscore s)).map Gas.mk
    else .error .InvalidDigit

/-! ### The text formatter (`impl Serialize for Gas`)

`write!(w, "{}", self.0)` renders the magnitude in decimal, most significant
digit first, into a 20-byte buffer; the write fails (and the code calls
`abort`) exactly when the rendered string does not fit into the buffer. -/

/-- Digit-extraction loop of the decimal formatter: least-significant-first
decimal digits of `n`, driven by a fuel argument (any fuel with
`n < 10 ^ fuel` yields all digits). -/
def toDecAux : Nat → Nat → List Nat
  | 0, _ => []
  | fuel + 1, n => if n = 0 then [] else n % 10 :: toDecAux fuel (n / 10)

/-- Least-significant-first decimal digits of `n` (fuel `n` always
suffices, since `n < 10 ^ n`). -/
def decDigits (n : Nat) : List Nat := toDecAux n n

/-- The byte string produced by `write!(_, "{}", n)` for a `u64` value `n`:
ASCII decimal, most significant digit first, and `"0"` for zero. -/
def fmtU64 (n : Nat) : List Nat :=
  if n = 0 then [48] else (decDigits n).reverse.map (fun d => d + 48)

/-- `impl Serialize for Gas`: render the magnitude into the 20-byte buffer.
`none` models the `unwrap_or_else(|_| crate::env::abort())` branch, taken
exactly when the rendered decimal does not fit in 20 bytes. -/
def Gas.serializeText (g : Gas) : Option (List Nat) :=
  if (fmtU64 g.val).length ≤ 20 then some (fmtU64 g.val) else none

/-! ### The binary (borsh) encoding

`#[derive(BorshSerialize, BorshDeserialize)]` on `Gas(u64)` writes the
magnitude as the 8 little-endian bytes of the `u64` and reads it back by
consuming exactly 8 bytes; a reader holding fewer than 8 bytes fails with an
unexpected-end-of-input decode error. -/

inductive BorshError where
  | unexpectedEndOfInput
deriving DecidableEq

/-- `u64::to_le_bytes` of the magnitude: the 8 little-endian base-256 bytes. -/
def Gas.borshSerialize (g : Gas) : List Nat :=
  [g.val % 256, g.val / 256 % 256, g.val / 256 ^ 2 % 256, g.val / 256 ^ 3 % 256,
   g.val / 256 ^ 4 % 256, g.val / 256 ^ 5 % 256, g.val / 256 ^ 6 % 256,
   g.val / 256 ^ 7 % 256]

/-- Borsh deserialization of a `u64`: consume 8 little-endian bytes from the
buffer (trailing bytes belong to the rest of the reader); fail when fewer
than 8 bytes are available. -/
def Gas.borshDeserialize (bs : List Nat) : Except BorshError Gas :=
  if bs.length < 8 then .error .unexpectedEndOfInput
  else .ok ⟨bs.getD 0 0 + 256 * bs.getD 1 0 + 256 ^ 2 * bs.getD 2 0 +
    256 ^ 3 * bs.getD 3 0 + 256 ^ 4 * bs.getD 4 0 + 256 ^ 5 * bs.getD 5 0 +
    256 ^ 6 * bs.getD 6 0 + 256 ^ 7 * bs.getD 7 0⟩

/-! ### The derived comparisons

`#[derive(PartialEq, PartialOrd, Ord, Eq)]` on the single-field struct
compares the field: `cmp` is `self.0.cmp(&other.0)` and equality is
`self.0 == other.0`. -/

/-- Derived `Ord::cmp` on `Gas`: comparison of the magnitudes. -/
def Gas.cmp (a b : Gas) : Ordering := compare a.val b.val

/-- Derived `PartialEq::eq` on `Gas`: equality of the magnitudes. -/
def Gas.beq (a b : Gas) : Bool := a.val == b.val

/-- Bytes of a string literal, for stating concrete examples. -/
def ascii (s : String) : List Nat := s.data.map Char.toNat

/-- Numeric value accumulated by the digit loop: positional base-10 value of
the digit bytes `bs` on top of an initial accumulator `acc`. -/
def accDigits (acc : Nat) (bs : List Nat) : Nat :=
  bs.foldl (fun a b => a * 10 + (b - 48)) acc

/-- Positional base-10 value of a string of ASCII digit bytes. -/
def digitStringVal (s : List Nat) : Nat := accDigits 0 s

/-- Whether every byte of `s` is an ASCII decimal digit. -/
def allDigits (s : List Nat) : Bool := s.all isNum

/-- Drop one leading `+` sign byte, the sign handling of `from_str_radix`
for an unsigned type. -/
def stripPlus (s : List Nat) : List Nat :=
  match s with
  | [] => []
  | b :: rest => if b = 43 then rest else b :: rest

/-! ### Lemmas about the digit loop -/

theorem accDigits_nil (acc : Nat) : accDigits acc [] = acc := rfl

theorem accDigits_cons (acc b : Nat) (bs : List Nat) :
    accDigits acc (b :: bs) = accDigits (acc * 10 + (b - 48)) bs := rfl

/-- The accumulator never decreases along the digit loop. -/
theorem le_accDigits (bs : List Nat) : ∀ acc : Nat, acc ≤ accDigits acc bs := by
  induction bs with
  | nil => intro acc; exact Nat.le_refl acc
  | cons b bs ih =>
    intro acc
    calc acc ≤ acc * 10 + (b - 48) := by omega
    _ ≤ accDigits (acc * 10 + (b - 48)) bs := ih _

/-- Success case of the digit loop: on an all-digit byte string whose value
fits in a `u64`, the loop returns the accumulated value. -/
theorem parseDigitsLoop_ok_of_digits (bs : List Nat) :
    ∀ acc : Nat, (∀ b ∈ bs, isNum b = true) → accDigits acc bs ≤ U64_MAX →
      parseDigitsLoop bs acc = .ok (accDigits acc bs) := by
  induction bs with
  | nil => intro acc _ _; rfl
  | cons b bs ih =>
    intro acc hdig hle
    have hb : isNum b = true := hdig b (List.mem_cons_self b bs)
    have hb' : 48 ≤ b ∧ b ≤ 57 := of_decide_eq_true hb
    have hstep : acc * 10 + (b - 48) ≤ U64_MAX := by
      have := le_accDigits bs (acc * 10 + (b - 48))
      rw [accDigits_cons] at hle
      omega
    rw [accDigits_cons]
    simp only [parseDigitsLoop, toDigit10, if_pos hb']
    rw [if_pos hstep]
    exact ih _ (fun x hx => hdig x (List.mem_cons_of_mem b hx)) (by rwa [accDigits_cons] at hle)

/-- Inversion of a successful run of the digit loop: every byte is a digit,
the result is the accumulated value, and it fits in a `u64`. -/
theorem parseDigitsLoop_ok_inv (bs : List Nat) :
    ∀ acc v : Nat, acc ≤ U64_MAX → parseDigitsLoop bs acc = .ok v →
      (∀ b ∈ bs, isNum b = true) ∧ v = accDigits acc bs ∧ v ≤ U64_MAX := by
  induction bs with
  | nil =>
    intro acc v hacc h
    simp only [parseDigitsLoop] at h
    refine ⟨by simp, ?_, ?_⟩
    · rw [accDigits_nil]; exact (Except.ok.inj h).symm
    · have : acc = v := Except.ok.inj h
      omega
  | cons b bs ih =>
    intro acc v hacc h
    by_cases hb : 48 ≤ b ∧ b ≤ 57
    · simp only [parseDigitsLoop, toDigit10, if_pos hb] at h
      by_cases hstep : acc * 10 + (b - 48) ≤ U64_MAX
      · rw [if_pos hstep] at h
        obtain ⟨h1, h2, h3⟩ := ih _ v hstep h
        refine ⟨?_, ?_, h3⟩
        · intro x hx
          rcases List.mem_cons.mp hx with hx | hx
          · subst hx; exact decide_eq_true hb
          · exact h1 x hx
        · rw [accDigits_cons]; exact h2
      · rw [if_neg hstep] at h
        exact absurd h (by simp)
    · simp only [parseDigitsLoop, toDigit10, if_neg hb] at h
      exact absurd h (by simp)

/-- Overflow case of the digit loop: on an all-digit byte string whose value
exceeds `u64::MAX`, the loop fails with `PosOverflow`. -/
theorem parseDigitsLoop_overflow (bs : List Nat) :
    ∀ acc : Nat, acc ≤ U64_MAX → (∀ b ∈ bs, isNum b = true) →
      U64_MAX < accDigits acc bs → parseDigitsLoop bs acc = .error .PosOverflow := by
  induction bs with
  | nil =>
    intro acc hacc _ hgt
    rw [accDigits_nil] at hgt
    omega
  | cons b bs ih =>
    intro acc hacc hdig hgt
    have hb : 48 ≤ b ∧ b ≤ 57 := of_decide_eq_true (hdig b (List.mem_cons_self b bs))
    simp only [parseDigitsLoop, toDigit10, if_pos hb]
    by_cases hstep : acc * 10 + (b - 48) ≤ U64_MAX
    · rw [if_pos hstep]
      exact ih _ hstep (fun x hx => hdig x (List.mem_cons_of_mem b hx))
        (by rwa [accDigits_cons] at hgt)
    · rw [if_neg hstep]

/-- Characterization of a successful run of the digit loop from accumulator
zero. -/
theorem parseDigitsLoop_isOk (bs : List Nat) :
    (parseDigitsLoop bs 0).isOk = true ↔
      (allDigits bs = true ∧ digitStringVal bs ≤ U64_MAX) := by
  constructor
  · intro h
    obtain ⟨v, hv⟩ : ∃ v, parseDigitsLoop bs 0 = .ok v := by
      cases hloop : parseDigitsLoop bs 0 with
      | ok v => exact ⟨v, rfl⟩
      | error e => rw [hloop] at h; simp [Except.isOk, Except.toBool] at h
    obtain ⟨h1, h2, h3⟩ := parseDigitsLoop_ok_inv bs 0 v (by simp [U64_MAX]) hv
    exact ⟨by simpa [allDigits, List.all_eq_true] using h1, by rw [digitStringVal, ← h2]; exact h3⟩
  · rintro ⟨h1, h2⟩
    rw [parseDigitsLoop_ok_of_digits bs 0
      (by simpa [allDigits, List.all_eq_true] using h1) h2]
    rfl

/-! ### Lemmas about the decimal formatter -/

/-- With enough fuel, the digit-extraction loop computes exactly the base-10
digits of `n`. -/
theorem toDecAux_eq_digits (fuel : Nat) :
    ∀ n : Nat, n < 10 ^ fuel → toDecAux fuel n = Nat.digits 10 n := by
  induction fuel with
  | zero =>
    intro n hn
    have : n = 0 := by simpa using hn
    subst this
    rw [Nat.digits_zero]
    rfl
  | succ fuel ih =>
    intro n hn
    by_cases h0 : n = 0
    · subst h0; rw [Nat.digits_zero]; rfl
    · have hdiv : n / 10 < 10 ^ fuel := by
        rw [Nat.div_lt_iff_lt_mul (by norm_num : 0 < 10)]
        calc n < 10 ^ (fuel + 1) := hn
        _ = 10 ^ fuel * 10 := by ring
      simp only [toDecAux, if_neg h0]
      rw [ih _ hdiv, Nat.digits_def' (by norm_num : 1 < 10) (Nat.pos_of_ne_zero h0)]

/-- Fuel `n` suffices: `decDigits` computes the base-10 digits. -/
theorem decDigits_eq_digits (n : Nat) : decDigits n = Nat.digits 10 n :=
  toDecAux_eq_digits n n (Nat.lt_pow_self (by norm_num) n)

/-- Accumulating the bytes of an encoded digit list is accumulating the
digits themselves. -/
theorem accDigits_map_add48 (ds : List Nat) (acc : Nat) :
    accDigits acc (ds.map (fun d => d + 48)) =
      ds.foldl (fun a d => a * 10 + d) acc := by
  simp [accDigits, List.foldl_map]

/-- Folding most-significant-first over the reversed digit list recovers the
positional value of the digits. -/
theorem foldl_reverse_digits (L : List Nat) :
    L.reverse.foldl (fun a d => a * 10 + d) 0 = Nat.ofDigits 10 L := by
  rw [List.foldl_reverse]
  induction L with
  | nil => simp [Nat.ofDigits]
  | cons d L ih =>
    rw [List.foldr_cons, ih, Nat.ofDigits_cons]
    ring

/-- Parsing the formatter's output of a nonzero value: the standard parser
accepts it and returns the value. -/
theorem u64FromStr_map_digits (ds : List Nat) (hne : ds ≠ [])
    (hlt : ∀ d ∈ ds, d < 10)
    (hle : ds.foldl (fun a d => a * 10 + d) 0 ≤ U64_MAX) :
    u64FromStr (ds.map (fun d => d + 48)) =
      .ok (ds.foldl (fun a d => a * 10 + d) 0) := by
  obtain ⟨d, ds', rfl⟩ : ∃ d ds', ds = d :: ds' := by
    cases ds with
    | nil => exact absurd rfl hne
    | cons d ds' => exact ⟨d, ds', rfl⟩
  have hd : d < 10 := hlt d (List.mem_cons_self d ds')
  have hall : ∀ b ∈ (d :: ds').map (fun d => d + 48), isNum b = true := by
    intro b hb
    obtain ⟨x, hx, rfl⟩ := List.mem_map.mp hb
    have := hlt x hx
    simp [isNum]
    omega
  have hacc : accDigits 0 ((d :: ds').map (fun d => d + 48)) ≤ U64_MAX := by
    rw [accDigits_map_add48]; exact hle
  have hcons : (d :: ds').map (fun d => d + 48) = (d + 48) :: ds'.map (fun d => d + 48) :=
    List.map_cons _ _ _
  rw [hcons]
  simp only [u64FromStr, if_neg (by omega : ¬ d + 48 = 43)]
  rw [← hcons, parseDigitsLoop_ok_of_digits _ 0 hall hacc, accDigits_map_add48]

/-- Round trip through the text formatter and the standard parser, for any
`u64` magnitude. -/
theorem u64FromStr_fmtU64 (m : Nat) (hm : m ≤ U64_MAX) :
    u64FromStr (fmtU64 m) = .ok m := by
  by_cases h0 : m = 0
  · subst h0; rfl
  · have hne : (Nat.digits 10 m).reverse ≠ [] := by
      simpa using Nat.digits_ne_nil_iff_ne_zero.mpr h0
    have hlt : ∀ d ∈ (Nat.digits 10 m).reverse, d < 10 := by
      intro d hd
      exact Nat.digits_lt_base (by norm_num) (List.mem_reverse.mp hd)
    have hval : (Nat.digits 10 m).reverse.foldl (fun a d => a * 10 + d) 0 = m := by
      rw [foldl_reverse_digits, Nat.ofDigits_digits]
    simp only [fmtU64, if_neg h0, decDigits_eq_digits]
    rw [u64FromStr_map_digits _ hne hlt (by rw [hval]; exact hm), hval]

/-- Digit-count bound: any magnitude within `u64` renders into at most 20
bytes, the size of the serializer's buffer. -/
theorem fmtU64_length_le (m : Nat) (hm : m ≤ U64_MAX) : (fmtU64 m).length ≤ 20 := by
  by_cases h0 : m = 0
  · subst h0; simp [fmtU64]
  · simp only [fmtU64, if_neg h0, decDigits_eq_digits, List.length_map,
      List.length_reverse]
    by_contra hlen
    have h21 : 21 ≤ (Nat.digits 10 m).length := by omega
    have hpow : 10 ^ (Nat.digits 10 m).length ≤ 10 * m :=
      Nat.base_pow_length_digits_le 10 m (by norm_num) h0
    have h1021 : (10 : Nat) ^ 21 ≤ 10 ^ (Nat.digits 10 m).length :=
      Nat.pow_le_pow_right (by norm_num) h21
    have hbig : (10 : Nat) ^ 21 = 1000000000000000000000 := by norm_num
    have hmax : U64_MAX = 18446744073709551615 := by norm_num [U64_MAX]
    omega

/-! ### Lemmas about the standard parser as a whole -/

theorem isOk_map_mk (e : Except IntErrorKind Nat) :
    ((e.map Gas.mk).isOk) = e.isOk := by
  cases e <;> rfl

/-- Exact success condition of `u64::from_str_radix(s, 10)`: after the
optional leading `+` sign, the string must be a nonempty run of decimal
digits whose value fits in a `u64`. -/
theorem u64FromStr_isOk (s : List Nat) :
    (u64FromStr s).isOk = true ↔
      (stripPlus s ≠ [] ∧ allDigits (stripPlus s) = true ∧
        digitStringVal (stripPlus s) ≤ U64_MAX) := by
  cases s with
  | nil => simp [u64FromStr, stripPlus, Except.isOk, Except.toBool]
  | cons b rest =>
    by_cases hb : b = 43
    · subst hb
      by_cases hr : rest = []
      · subst hr
        simp [u64FromStr, stripPlus, Except.isOk, Except.toBool]
      · have h1 : u64FromStr (43 :: rest) = parseDigitsLoop rest 0 := by
          simp [u64FromStr, hr]
        have h2 : stripPlus (43 :: rest) = rest := by simp [stripPlus]
        rw [h1, h2, parseDigitsLoop_isOk]
        simp [hr]
    · have h1 : u64FromStr (b :: rest) = parseDigitsLoop (b :: rest) 0 := by
        simp [u64FromStr, hb]
      have h2 : stripPlus (b :: rest) = b :: rest := by simp [stripPlus, hb]
      rw [h1, h2, parseDigitsLoop_isOk]
      simp

/-- A byte string of pure digits whose value exceeds `u64::MAX` makes the
standard parser fail with `PosOverflow`. -/
theorem u64FromStr_overflow (s : List Nat) (hne : s ≠ [])
    (hdig : allDigits s = true) (hgt : U64_MAX < digitStringVal s) :
    u64FromStr s = .error .PosOverflow := by
  obtain ⟨b, rest, rfl⟩ : ∃ b rest, s = b :: rest := by
    cases s with
    | nil => exact absurd rfl hne
    | cons b rest => exact ⟨b, rest, rfl⟩
  have hb : isNum b = true := by
    have := (List.all_eq_true.mp hdig) b (List.mem_cons_self b rest)
    simpa using this
  have hb' : 48 ≤ b ∧ b ≤ 57 := of_decide_eq_true hb
  simp only [u64FromStr, if_neg (by omega : ¬ b = 43)]
  exact parseDigitsLoop_overflow (b :: rest) 0 (by simp [U64_MAX])
    (by simpa [allDigits, List.all_eq_true] using hdig) hgt

/-! ### Lemmas about the binary encoding -/

/-- Borsh round trip at the `u64` level. -/
theorem borsh_round_trip (m : Nat) (hm : m ≤ U64_MAX) :
    Gas.borshDeserialize (Gas.borshSerialize ⟨m⟩) = .ok ⟨m⟩ := by
  have hmax : m < 2 ^ 64 := by
    have : U64_MAX = 2 ^ 64 - 1 := rfl
    omega
  simp only [Gas.borshSerialize, Gas.borshDeserialize]
  rw [if_neg (by simp)]
  have hval : m % 256 + 256 * (m / 256 % 256) + 256 ^ 2 * (m / 256 ^ 2 % 256) +
      256 ^ 3 * (m / 256 ^ 3 % 256) + 256 ^ 4 * (m / 256 ^ 4 % 256) +
      256 ^ 5 * (m / 256 ^ 5 % 256) + 256 ^ 6 * (m / 256 ^ 6 % 256) +
      256 ^ 7 * (m / 256 ^ 7 % 256) = m := by
    have h64 : (2 : Nat) ^ 64 = 256 ^ 8 := by norm_num
    rw [h64] at hmax
    norm_num
    omega
  simp only [List.getD_cons_zero, List.getD_cons_succ]
  rw [hval]

/-! ### Claim theorems -/

/-- C1: the free-form parser does not strip the underscore separators — it
replaces each one with the two characters `to` — so parsing
`"1_000_000_000_000"` fails with `InvalidDigit` instead of returning
`Gas(1000000000000)` as the specification (and the repository's own
`test_gas_from_str`) requires. -/
theorem C1_from_str_separator_defect :
    Gas.from_str (ascii "1_000_000_000_000") = .error .InvalidDigit ∧
    replaceUnderscore (ascii "1_000_000_000_000") = ascii "1to000to000to000to000" ∧
    Gas.from_str (ascii "1000000000000") = .ok ⟨1000000000000⟩ := by decide

/-- C2 counterexample: at `a = b = Gas(2^63)` the sum overflows and native
`u64` addition panics (overflow checks on) or wraps to `Gas(0)` (checks
off); in neither build does it produce an explicit `Overflow` result, and
`Gas(0) - Gas(1)` likewise panics or wraps instead of producing an explicit
`Underflow` result. -/
theorem C2_overflow_counterexample :
    Gas.add true ⟨9223372036854775808⟩ ⟨9223372036854775808⟩ = .panicked ∧
    Gas.add false ⟨9223372036854775808⟩ ⟨9223372036854775808⟩ = .wrapped ⟨0⟩ ∧
    Gas.add true ⟨9223372036854775808⟩ ⟨9223372036854775808⟩ ≠ .err .Overflow ∧
    Gas.add false ⟨9223372036854775808⟩ ⟨9223372036854775808⟩ ≠ .err .Overflow ∧
    Gas.sub true ⟨0⟩ ⟨1⟩ = .panicked ∧
    Gas.sub false ⟨0⟩ ⟨1⟩ = .wrapped ⟨18446744073709551615⟩ ∧
    Gas.sub true ⟨0⟩ ⟨1⟩ ≠ .err .Underflow ∧
    Gas.sub false ⟨0⟩ ⟨1⟩ ≠ .err .Underflow := by decide

/-- C2 (amended): `add` returns the sum as a new `Gas` when it is
representable; when the sum exceeds `2^64−1` it panics under overflow
checks or returns the sum wrapped modulo `2^64` without them, never an
explicit `Overflow` result; `sub` returns the difference when the right
operand does not exceed the left, and otherwise panics or wraps, never an
explicit `Underflow` result. -/
theorem C2_add_sub_native_semantics (checks : Bool) (a b : Gas)
    (_ha : a.val ≤ U64_MAX) (_hb : b.val ≤ U64_MAX) :
    (a.val + b.val ≤ U64_MAX → Gas.add checks a b = .ok ⟨a.val + b.val⟩) ∧
    (U64_MAX < a.val + b.val →
      Gas.add true a b = .panicked ∧
      Gas.add false a b = .wrapped ⟨(a.val + b.val) % 2 ^ 64⟩ ∧
      Gas.add checks a b ≠ .err .Overflow) ∧
    (b.val ≤ a.val → Gas.sub checks a b = .ok ⟨a.val - b.val⟩) ∧
    (a.val < b.val →
      Gas.sub true a b = .panicked ∧
      Gas.sub false a b = .wrapped ⟨(2 ^ 64 + a.val - b.val) % 2 ^ 64⟩ ∧
      Gas.sub checks a b ≠ .err .Underflow) := by
  refine ⟨?_, ?_, ?_, ?_⟩
  · intro h
    simp [Gas.add, if_pos h]
  · intro h
    have hn : ¬ a.val + b.val ≤ U64_MAX := by omega
    refine ⟨by simp [Gas.add, hn], by simp [Gas.add, hn], ?_⟩
    cases checks <;> simp [Gas.add, hn]
  · intro h
    simp [Gas.sub, if_pos h]
  · intro h
    have hn : ¬ b.val ≤ a.val := by omega
    refine ⟨by simp [Gas.sub, hn], by simp [Gas.sub, hn], ?_⟩
    cases checks <;> simp [Gas.sub, hn]

/-- C2 witness: concrete in-range sum and difference. -/
theorem C2_witness : Gas.add true ⟨3⟩ ⟨4⟩ = .ok ⟨3 + 4⟩ ∧
    Gas.sub true ⟨9⟩ ⟨4⟩ = .ok ⟨9 - 4⟩ :=
  ⟨(C2_add_sub_native_semantics true ⟨3⟩ ⟨4⟩ (by decide) (by decide)).1 (by decide),
   (C2_add_sub_native_semantics true ⟨9⟩ ⟨4⟩ (by decide) (by decide)).2.2.1 (by decide)⟩

/-- C3 counterexample: dividing `Gas(5)` by zero panics — in every build
configuration — rather than returning an explicit `DivisionByZero` result,
and likewise for the remainder. -/
theorem C3_div_zero_counterexample :
    Gas.div ⟨5⟩ 0 = .panicked ∧ Gas.rem ⟨5⟩ 0 = .panicked ∧
    Gas.div ⟨5⟩ 0 ≠ .err .DivisionByZero ∧
    Gas.rem ⟨5⟩ 0 ≠ .err .DivisionByZero := by decide

/-- C3 (amended): division and remainder with `n == 0` always panic — they
never return an explicit `DivisionByZero` result nor a sentinel value — and
for `n ≠ 0` they return the integer quotient and remainder of the
magnitude. -/
theorem C3_div_rem_semantics (a : Gas) (n : Nat) :
    (n = 0 → Gas.div a n = .panicked ∧ Gas.rem a n = .panicked ∧
      Gas.div a n ≠ .err .DivisionByZero ∧ Gas.rem a n ≠ .err .DivisionByZero) ∧
    (n ≠ 0 → Gas.div a n = .ok ⟨a.val / n⟩ ∧ Gas.rem a n = .ok ⟨a.val % n⟩) := by
  constructor
  · rintro rfl
    simp [Gas.div, Gas.rem]
  · intro h
    simp [Gas.div, Gas.rem, h]

/-- C3 witness: concrete quotient and remainder with a nonzero divisor. -/
theorem C3_witness : Gas.div ⟨17⟩ 5 = .ok ⟨17 / 5⟩ ∧ Gas.rem ⟨17⟩ 5 = .ok ⟨17 % 5⟩ :=
  (C3_div_rem_semantics ⟨17⟩ 5).2 (by decide)

/-- C4 counterexample: at `n = 18446745` the product `n × 10^12` exceeds
`2^64−1` and `from_tgas` panics (overflow checks on) or wraps (checks off);
in neither build does it produce an explicit `Overflow` result. -/
theorem C4_from_tgas_overflow_counterexample :
    Gas.from_tgas true 18446745 = .panicked ∧
    Gas.from_tgas false 18446745 = .wrapped ⟨926290448384⟩ ∧
    Gas.from_tgas true 18446745 ≠ .err .Overflow ∧
    Gas.from_tgas false 18446745 ≠ .err .Overflow := by decide

/-- C4 (amended): `from_tgas(n)` returns a `Gas` of magnitude `n × 10^12`
whenever that product is representable in 64 bits (in particular
`from_tgas(1) = Gas(10^12)` and `from_tgas(300) = Gas(3 × 10^14)`); when the
product exceeds the 64-bit range it panics under overflow checks or wraps
modulo `2^64` without them, never an explicit `Overflow` result. -/
theorem C4_from_tgas_semantics (checks : Bool) (n : Nat) :
    (10 ^ 12 * n ≤ U64_MAX → Gas.from_tgas checks n = .ok ⟨10 ^ 12 * n⟩) ∧
    (U64_MAX < 10 ^ 12 * n →
      Gas.from_tgas true n = .panicked ∧
      Gas.from_tgas false n = .wrapped ⟨(10 ^ 12 * n) % 2 ^ 64⟩ ∧
      Gas.from_tgas checks n ≠ .err .Overflow) := by
  have hpow : (10 : Nat) ^ 12 = 1000000000000 := by norm_num
  constructor
  · intro h
    rw [hpow] at h
    simp [Gas.from_tgas, Gas.mul, ONE_TGAS, h]
  · intro h
    rw [hpow] at h
    have hn : ¬ 1000000000000 * n ≤ U64_MAX := by omega
    refine ⟨by simp [Gas.from_tgas, Gas.mul, ONE_TGAS, hn],
      by simp [Gas.from_tgas, Gas.mul, ONE_TGAS, hn], ?_⟩
    cases checks <;> simp [Gas.from_tgas, Gas.mul, ONE_TGAS, hn]

/-- C4 witness: the two concrete scalings of the specification. -/
theorem C4_witness : Gas.from_tgas true 1 = .ok ⟨10 ^ 12 * 1⟩ ∧
    Gas.from_tgas true 300 = .ok ⟨10 ^ 12 * 300⟩ :=
  ⟨(C4_from_tgas_semantics true 1).1 (by decide),
   (C4_from_tgas_semantics true 300).1 (by decide)⟩

/-- C5: for every representable magnitude, decoding the text encoding
returns the magnitude, and the encoder produces the canonical decimal
strings `"0"`, `"8"` and `"18446744073709551615"` at the three concrete
magnitudes of the specification. -/
theorem C5_text_round_trip :
    (∀ m : Nat, m ≤ U64_MAX → Gas.deserializeText (fmtU64 m) = .ok ⟨m⟩) ∧
    fmtU64 0 = ascii "0" ∧ fmtU64 8 = ascii "8" ∧
    fmtU64 18446744073709551615 = ascii "18446744073709551615" := by
  refine ⟨?_, by decide, by decide, by decide⟩
  intro m hm
  rw [Gas.deserializeText, u64FromStr_fmtU64 m hm]
  rfl

/-- C5 witness: round trip at the concrete magnitude 8. -/
theorem C5_witness : Gas.deserializeText (fmtU64 8) = .ok ⟨8⟩ :=
  C5_text_round_trip.1 8 (by decide)

/-- C6 counterexample: the wire-text decoder accepts `"+5"`, a string that
does not consist solely of decimal digits, so "succeeds exactly when the
string consists solely of decimal digits" fails at this input. -/
theorem C6_decode_plus_counterexample :
    Gas.deserializeText (ascii "+5") = .ok ⟨5⟩ ∧
    (Gas.deserializeText (ascii "+5")).isOk = true ∧
    allDigits (ascii "+5") = false := by decide

/-- C6 (amended): decoding succeeds exactly when, after an optional leading
`+` sign, the string is a nonempty run of decimal digits whose value is at
most `2^64−1`; any other content fails with a parse error, and an all-digit
string whose value exceeds `2^64−1` fails with `PosOverflow`. -/
theorem C6_decode_characterization (s : List Nat) :
    ((Gas.deserializeText s).isOk = true ↔
      (stripPlus s ≠ [] ∧ allDigits (stripPlus s) = true ∧
        digitStringVal (stripPlus s) ≤ U64_MAX)) ∧
    (s ≠ [] → allDigits s = true → U64_MAX < digitStringVal s →
      Gas.deserializeText s = .error .PosOverflow) := by
  constructor
  · rw [Gas.deserializeText, isOk_map_mk]
    exact u64FromStr_isOk s
  · intro hne hdig hgt
    rw [Gas.deserializeText, u64FromStr_overflow s hne hdig hgt]
    rfl

/-- C6 witness: a pure digit string decodes, and the first value beyond
`u64::MAX` fails with `PosOverflow`. -/
theorem C6_witness :
    (Gas.deserializeText (ascii "123")).isOk = true ∧
    Gas.deserializeText (ascii "18446744073709551616") = .error .PosOverflow :=
  ⟨(C6_decode_characterization (ascii "123")).1.mpr (by decide),
   (C6_decode_characterization (ascii "18446744073709551616")).2
     (by decide) (by decide) (by decide)⟩

/-- C7: any free-form parse input whose first character is not a decimal
digit fails immediately with `InvalidDigit`. -/
theorem C7_leading_non_digit (b : Nat) (bs : List Nat) (h : isNum b = false) :
    Gas.from_str (b :: bs) = .error .InvalidDigit := by
  simp [Gas.from_str, h]

/-- C7 witness: `from_str("A")` fails with `InvalidDigit`. -/
theorem C7_witness : Gas.from_str (ascii "A") = .error .InvalidDigit := by
  have h : ascii "A" = [65] := by decide
  rw [h]
  exact C7_leading_non_digit 65 [] (by decide)

/-- C8: the binary encoding of any `Gas` is exactly 8 bytes — the
little-endian base-256 representation of the magnitude, as the concrete
encoding of 258 shows — decoding the encoding returns the magnitude
unchanged, and decoding any buffer shorter than 8 bytes fails with a decode
error. -/
theorem C8_binary_layout_round_trip :
    (∀ g : Gas, (Gas.borshSerialize g).length = 8) ∧
    Gas.borshSerialize ⟨258⟩ = [2, 1, 0, 0, 0, 0, 0, 0] ∧
    (∀ m : Nat, m ≤ U64_MAX →
      Gas.borshDeserialize (Gas.borshSerialize ⟨m⟩) = .ok ⟨m⟩) ∧
    (∀ bs : List Nat, bs.length < 8 →
      Gas.borshDeserialize bs = .error .unexpectedEndOfInput) := by
  refine ⟨fun g => rfl, by decide, fun m hm => borsh_round_trip m hm, fun bs h => ?_⟩
  simp [Gas.borshDeserialize, h]

/-- C8 witness: binary round trip at a concrete magnitude and failure on a
3-byte buffer. -/
theorem C8_witness :
    Gas.borshDeserialize (Gas.borshSerialize ⟨123456789⟩) = .ok ⟨123456789⟩ ∧
    Gas.borshDeserialize [1, 2, 3] = .error .unexpectedEndOfInput :=
  ⟨C8_binary_layout_round_trip.2.2.1 123456789 (by decide),
   C8_binary_layout_round_trip.2.2.2 [1, 2, 3] (by decide)⟩

/-- C9: the decimal rendering of any `u64` magnitude is at most 20 bytes, so
it always fits the serializer's fixed 20-byte buffer and the abort branch of
the write is unreachable: serialization always succeeds. -/
theorem C9_format_buffer_infallible (g : Gas) (h : g.val ≤ U64_MAX) :
    (fmtU64 g.val).length ≤ 20 ∧ Gas.serializeText g = some (fmtU64 g.val) := by
  have hl := fmtU64_length_le g.val h
  exact ⟨hl, by simp [Gas.serializeText, hl]⟩

/-- C9 witness: the largest magnitude serializes (to its 20-digit decimal
string). -/
theorem C9_witness :
    Gas.serializeText ⟨18446744073709551615⟩ = some (ascii "18446744073709551615") := by
  have h := (C9_format_buffer_infallible ⟨18446744073709551615⟩ (by decide)).2
  rw [h]
  decide

/-- C10: the derived comparison on `Gas` agrees with the comparison of the
underlying magnitudes, so wrapping a `u64` as `Gas` is an
order-isomorphism. -/
theorem C10_order_agrees_with_magnitude (x y : Nat) :
    (Gas.cmp ⟨x⟩ ⟨y⟩ = .lt ↔ x < y) ∧
    (Gas.cmp ⟨x⟩ ⟨y⟩ = .eq ↔ x = y) ∧
    (Gas.cmp ⟨x⟩ ⟨y⟩ = .gt ↔ y < x) ∧
    (Gas.beq ⟨x⟩ ⟨y⟩ = true ↔ x = y) := by
  refine ⟨Nat.compare_eq_lt, Nat.compare_eq_eq, Nat.compare_eq_gt, ?_⟩
  simp [Gas.beq]

/-- C10 witness: concrete comparisons. -/
theorem C10_witness : Gas.cmp ⟨3⟩ ⟨5⟩ = .lt ∧ Gas.beq ⟨4⟩ ⟨4⟩ = true :=
  ⟨(C10_order_agrees_with_magnitude 3 5).1.mpr (by decide),
   (C10_order_agrees_with_magnitude 4 4).2.2.2.mpr rfl⟩

end GasSpec
